import Mathlib

/-!
Verification development for the SafeSwap.ai market-data ingestion pipeline.

The definitions below are a shallow embedding of the two Go programs in
`src/api/main.go` (the REST collector and the Playwright historical-data
scraper).  Go float64 values are modelled as exact rational numbers: every
concrete value analysed in the theorems is either exactly representable as a
float64 or rounds to the same printed result, so the rational model agrees
with the Go semantics on all inputs considered.  The rationals are carried by
a dedicated normalized-fraction structure `FQ` whose operations are
kernel-computable (structural recursion only), so concrete runs of the
embedded code can be settled by `decide`.  Go runtime panics (nil
dereference, index out of range) are modelled with `Except String`, the error
carrying the panic message.
-/

namespace SafeSwap

/-- Decidable equality for `Except`, used to evaluate embedded computations
that model Go panics. -/
instance {ε α : Type} [DecidableEq ε] [DecidableEq α] :
    DecidableEq (Except ε α) := fun a b =>
  match a, b with
  | Except.error x, Except.error y =>
    if h : x = y then isTrue (congrArg Except.error h)
    else isFalse (fun he => h (by cases he; rfl))
  | Except.ok x, Except.ok y =>
    if h : x = y then isTrue (congrArg Except.ok h)
    else isFalse (fun he => h (by cases he; rfl))
  | Except.error _, Except.ok _ => isFalse (fun he => Except.noConfusion he)
  | Except.ok _, Except.error _ => isFalse (fun he => Except.noConfusion he)

/-- Euclid's algorithm with explicit fuel (structural recursion so the kernel
can evaluate it).  `gcdFuel (m+1) m n` computes the gcd of `m` and `n`: the
first argument strictly decreases every step, so fuel `m+1` always suffices. -/
def gcdFuel : Nat → Nat → Nat → Nat
  | 0, _, n => n
  | fuel + 1, m, n => if m = 0 then n else gcdFuel fuel (n % m) m

/-- Greatest common divisor via `gcdFuel`. -/
def natGcd (m n : Nat) : Nat := gcdFuel (m + 1) m n

/-- Exact-rational model of a Go float64 value: a normalized fraction
`num / den` with `den` positive.  All operations below keep the fraction
normalized, so structural (derived) equality coincides with value equality
on every term the embedding produces. -/
structure FQ where
  num : Int
  den : Nat
deriving DecidableEq, Repr

/-- Normalize a raw fraction (a zero denominator never arises from the
embedded code; it is mapped to zero for totality). -/
def FQ.norm (n : Int) (d : Nat) : FQ :=
  if d = 0 then ⟨0, 1⟩
  else
    let g := natGcd n.natAbs d
    ⟨n.tdiv g, d / g⟩

instance (n : Nat) : OfNat FQ n := ⟨⟨(n : Int), 1⟩⟩

/-- Float64 multiplication (exact in the rational model). -/
def FQ.mul (a b : FQ) : FQ := FQ.norm (a.num * b.num) (a.den * b.den)

/-- Float64 division (exact in the rational model); division by zero never
occurs in the embedded code paths. -/
def FQ.div (a b : FQ) : FQ :=
  FQ.norm (if b.num < 0 then -(a.num * b.den) else a.num * b.den)
    (a.den * b.num.natAbs)

/-- Order on the fraction model by cross-multiplication. -/
instance : LT FQ := ⟨fun a b => a.num * (b.den : Int) < b.num * (a.den : Int)⟩

instance (a b : FQ) : Decidable (a < b) :=
  inferInstanceAs (Decidable (a.num * (b.den : Int) < b.num * (a.den : Int)))

/-- Conversion of a float64 to int64 as performed by a Go conversion:
truncation toward zero. -/
def f64ToInt64 (q : FQ) : Int := q.num.tdiv (q.den : Int)

/-- Zero-pad a natural number to `w` digits. -/
def padNat (w : Nat) (n : Nat) : String :=
  let s := toString n
  String.mk (List.replicate (w - s.length) '0') ++ s

/-- Decimal formatting of a float64 value with `prec` fractional digits,
modelling `fmt.Sprintf` with a fixed-precision float verb.
`(2·|num|·10^prec + den) / (2·den)` is `⌊|q|·10^prec + 1/2⌋`.  Rounding at
an exact half-way point differs from Go (which renders the binary double and
rounds its decimal expansion to even); no value analysed in this file sits on
a half-way point, so the model agrees with the source on all of them. -/
def fmtFixed (prec : Nat) (q : FQ) : String :=
  let n : Nat := (2 * q.num.natAbs * 10 ^ prec + q.den) / (2 * q.den)
  (if q.num < 0 then "-" else "") ++ toString (n / 10 ^ prec) ++
    (if prec = 0 then "" else "." ++ padNat prec (n % 10 ^ prec))

/-- Civil calendar date from a count of days since the Unix epoch
(Howard Hinnant's era-based algorithm), used to model the date part of
`time.Unix(ts, 0).Format`.  The source formats in the process-local time
zone; the model fixes UTC.  No claim below inspects the content of the date
string, only its column position. -/
def civilFromDays (z0 : Int) : Int × Nat × Nat :=
  let z := z0 + 719468
  let era : Int := (if 0 ≤ z then z else z - 146096).tdiv 146097
  let doe : Nat := (z - era * 146097).toNat
  let yoe : Nat := (doe - doe / 1460 + doe / 36524 - doe / 146096) / 365
  let doy : Nat := doe - (365 * yoe + yoe / 4 - yoe / 100)
  let mp : Nat := (5 * doy + 2) / 153
  let d : Nat := doy - (153 * mp + 2) / 5 + 1
  let m : Nat := if mp < 10 then mp + 3 else mp - 9
  (((yoe : Int) + era * 400) + (if m ≤ 2 then 1 else 0), m, d)

/-- Model of `time.Unix(ts, 0).Format` with the year-month-day layout used
throughout the source. -/
def formatUnixDate (ts : Int) : String :=
  let days := Int.fdiv ts 86400
  let c := civilFromDays days
  (if c.1 < 0 then "-" else "") ++ padNat 4 c.1.natAbs ++ "-" ++
    padNat 2 c.2.1 ++ "-" ++ padNat 2 c.2.2

/-! ### String helpers

The Go sources only ever replace single-character patterns
(`strings.ReplaceAll` with "$", ",", "B", "b", "M", "m"), test containment of
single characters, trim surrounding whitespace and upper-case ASCII, so the
models below work character-wise on the string's character list, which the
kernel can evaluate. -/

/-- Model of `strings.ReplaceAll s (String.singleton c) ""`: remove every
occurrence of the character. -/
def removeAllChar (s : String) (c : Char) : String :=
  String.mk (s.toList.filter (fun x => x ≠ c))

/-- Model of `strings.Contains` for a single-character pattern. -/
def containsChar (s : String) (c : Char) : Bool := s.toList.contains c

/-- Model of `strings.TrimSpace`. -/
def goTrim (s : String) : String :=
  String.mk
    (((s.toList.dropWhile Char.isWhitespace).reverse.dropWhile
        Char.isWhitespace).reverse)

/-- Model of `strings.ToUpper` (character-wise; ASCII as in the source's
token slugs). -/
def goToUpper (s : String) : String := String.mk (s.toList.map Char.toUpper)

/-- Split a character list at every occurrence of `c`. -/
def splitOnChar (c : Char) : List Char → List (List Char)
  | [] => [[]]
  | x :: xs =>
    let r := splitOnChar c xs
    if x = c then [] :: r
    else
      match r with
      | h :: t => (x :: h) :: t
      | [] => [[x]]

/-- Numeric value of a digit list (most significant first). -/
def digitsToNat (l : List Char) : Nat :=
  l.foldl (fun a c => 10 * a + (c.toNat - 48)) 0

/-- Model of `strconv.ParseFloat` restricted to plain decimal notation
(optional sign, integer digits, optional point and fraction digits, at least
one digit).  Exponent, infinity, NaN and hexadecimal forms — which no claim
exercises — are rejected.  On every input appearing in this file the model
agrees with the Go function, the parsed values being exactly representable
or rounding to the same printed result.  `none` models a non-nil Go error. -/
def parseDecimal? (s : String) : Option FQ :=
  let cs := s.toList
  let signed : Bool × List Char :=
    match cs with
    | '-' :: t => (true, t)
    | '+' :: t => (false, t)
    | _ => (false, cs)
  let val? : Option FQ :=
    match splitOnChar '.' signed.2 with
    | [ip] =>
      if ip ≠ [] ∧ ip.all Char.isDigit then some ⟨(digitsToNat ip : Int), 1⟩
      else none
    | [ip, fp] =>
      if (ip ≠ [] ∨ fp ≠ []) ∧ ip.all Char.isDigit ∧ fp.all Char.isDigit then
        some (FQ.norm ((digitsToNat ip * 10 ^ fp.length + digitsToNat fp : Nat) : Int)
          (10 ^ fp.length))
      else none
    | _ => none
  val?.map (fun v => if signed.1 then ⟨-v.num, v.den⟩ else v)

/-- Model of `parsePrice` from the scraper (src/api/main.go): trim, strip all
dollar signs and comma separators, detect a B/b (billions) or M/m (millions)
magnitude marker case-insensitively and remove it, parse the remainder as a
float and multiply; any parse failure yields 0.  The cell-index and
TextContent guards of the source (which also yield 0) are handled at the call
sites via `List.getD` with an empty-string default. -/
def parsePrice (text0 : String) : FQ :=
  let t1 := goTrim text0
  let t2 := removeAllChar (removeAllChar t1 '$') ','
  let step : FQ × String :=
    if containsChar t2 'B' || containsChar t2 'b' then
      (1000000000, removeAllChar (removeAllChar t2 'B') 'b')
    else if containsChar t2 'M' || containsChar t2 'm' then
      (1000000, removeAllChar (removeAllChar t2 'M') 'm')
    else (1, t2)
  let t3 := goTrim step.2
  match parseDecimal? t3 with
  | some v => v.mul step.1
  | none => 0

/-! ### Date parsing (scraper) -/

/-- Leap-year rule of the proleptic Gregorian calendar. -/
def isLeapYear (y : Nat) : Bool :=
  (y % 4 = 0 && y % 100 ≠ 0) || y % 400 = 0

/-- Number of days of a month, as validated by Go's `time.Parse`. -/
def daysInMonth (y : Nat) (m : Nat) : Nat :=
  if m = 2 then (if isLeapYear y then 29 else 28)
  else if m = 4 ∨ m = 6 ∨ m = 9 ∨ m = 11 then 30
  else 31

/-- A calendar triple is accepted by `time.Parse` when the month is 1–12 and
the day fits the month. -/
def validYMD (y m d : Nat) : Bool :=
  1 ≤ m && m ≤ 12 && 1 ≤ d && d ≤ daysInMonth y m

/-- Match a literal character sequence, returning the remainder. -/
def dropExact : List Char → List Char → Option (List Char)
  | [], rest => some rest
  | _ :: _, [] => none
  | p :: ps, x :: xs => if x = p then dropExact ps xs else none

/-- Read exactly `w` digits as a number, returning it with the remainder. -/
def takeDigits (w : Nat) (cs : List Char) : Option (Nat × List Char) :=
  let pre := cs.take w
  if pre.length = w ∧ pre.all Char.isDigit then some (digitsToNat pre, cs.drop w)
  else none

/-- Abbreviated month names of Go's reference layout `Jan`. -/
def monthAbbrevs : List (String × Nat) :=
  [("Jan", 1), ("Feb", 2), ("Mar", 3), ("Apr", 4), ("May", 5), ("Jun", 6),
   ("Jul", 7), ("Aug", 8), ("Sep", 9), ("Oct", 10), ("Nov", 11), ("Dec", 12)]

/-- Full month names of Go's reference layout `January`. -/
def monthFulls : List (String × Nat) :=
  [("January", 1), ("February", 2), ("March", 3), ("April", 4), ("May", 5),
   ("June", 6), ("July", 7), ("August", 8), ("September", 9), ("October", 10),
   ("November", 11), ("December", 12)]

/-- Parse `", 2006"` style day/comma/year tail: two-digit day already read by
the caller; here the layout `"02, 2006"` remainder after the month name. -/
def parseDayCommaYear (cs : List Char) : Option (Nat × Nat) := do
  let (d, r1) ← takeDigits 2 cs
  let r2 ← dropExact [',', ' '] r1
  let (y, r3) ← takeDigits 4 r2
  if r3 = [] then some (d, y) else none

/-- Layout `"Jan 02, 2006"`. -/
def parseLayoutMonDY (cs : List Char) : Option (Nat × Nat × Nat) :=
  monthAbbrevs.findSome? fun pr => do
    let r ← dropExact (pr.1.toList ++ [' ']) cs
    let (d, y) ← parseDayCommaYear r
    if validYMD y pr.2 d then some (y, pr.2, d) else none

/-- Layout `"January 02, 2006"`. -/
def parseLayoutMonthDY (cs : List Char) : Option (Nat × Nat × Nat) :=
  monthFulls.findSome? fun pr => do
    let r ← dropExact (pr.1.toList ++ [' ']) cs
    let (d, y) ← parseDayCommaYear r
    if validYMD y pr.2 d then some (y, pr.2, d) else none

/-- Layout `"02-01-2006"` (day-month-year). -/
def parseLayoutDMY (cs : List Char) : Option (Nat × Nat × Nat) := do
  let (d, r1) ← takeDigits 2 cs
  let r2 ← dropExact ['-'] r1
  let (m, r3) ← takeDigits 2 r2
  let r4 ← dropExact ['-'] r3
  let (y, r5) ← takeDigits 4 r4
  if r5 = [] ∧ validYMD y m d then some (y, m, d) else none

/-- Layout `"2006-01-02"` (year-month-day). -/
def parseLayoutYMD (cs : List Char) : Option (Nat × Nat × Nat) := do
  let (y, r1) ← takeDigits 4 cs
  let r2 ← dropExact ['-'] r1
  let (m, r3) ← takeDigits 2 r2
  let r4 ← dropExact ['-'] r3
  let (d, r5) ← takeDigits 2 r4
  if r5 = [] ∧ validYMD y m d then some (y, m, d) else none

/-- Model of `parseDate` from the scraper: the date cell is attempted against
the source's ordered list of layouts ("Jan 02, 2006", "January 02, 2006",
"02-01-2006", "2006-01-02"); the first that matches is reformatted as
year-month-day; if none matches, the raw text is returned unchanged.  The
model requires the exact widths of the reference layouts (Go's parser also
accepts some elided-zero widths, which no claim exercises). -/
def parseDate (dateStr : String) : String :=
  let cs := dateStr.toList
  match parseLayoutMonDY cs <|> parseLayoutMonthDY cs <|>
      parseLayoutDMY cs <|> parseLayoutYMD cs with
  | some (y, m, d) => padNat 4 y ++ "-" ++ padNat 2 m ++ "-" ++ padNat 2 d
  | none => dateStr

/-! ### CoinGecko historical normalization (REST collector) -/

/-- The decoded shape of a CoinGecko market-chart payload: parallel arrays of
`[timestamp_ms, value]` pairs (src/api/main.go, `CoinGeckoHistoricalResponse`). -/
structure CoinGeckoHistoricalResponse where
  prices : List (List FQ)
  marketCaps : List (List FQ)
  totalVolumes : List (List FQ)
deriving DecidableEq, Repr

/-- Go slice indexing: out of range is a runtime panic, modelled as an
`Except` error. -/
def goIndex (l : List FQ) (i : Nat) : Except String FQ :=
  match l[i]? with
  | some v => Except.ok v
  | none => Except.error "runtime error: index out of range"

/-- One iteration of the row loop of `writeCoinGeckoHistoricalToCSV`:
`p` is `data.Prices[i]`; the optional arguments are `data.MarketCaps[i]` and
`data.TotalVolumes[i]` when `i` is within those arrays (the source guards the
outer index with `i < len(...)` and otherwise leaves the zero value in
place). -/
def cgHistRecord (tokenID : String) (p : List FQ) (mcEntry : Option (List FQ))
    (volEntry : Option (List FQ)) : Except String (List String) :=
  match goIndex p 0 with
  | Except.error e => Except.error e
  | Except.ok ts0 =>
    match goIndex p 1 with
    | Except.error e => Except.error e
    | Except.ok price =>
      let timestamp : Int := f64ToInt64 (ts0.div 1000)
      let date := formatUnixDate timestamp
      match (match mcEntry with
             | some e => goIndex e 1
             | none => Except.ok 0 : Except String FQ) with
      | Except.error e => Except.error e
      | Except.ok marketCap =>
        match (match volEntry with
               | some e => goIndex e 1
               | none => Except.ok 0 : Except String FQ) with
        | Except.error e => Except.error e
        | Except.ok volume =>
          Except.ok [toString timestamp, date, tokenID, "", "",
            fmtFixed 8 price, fmtFixed 2 marketCap, fmtFixed 2 volume,
            "", "", "", "", "", "", "", "", "coingecko_historical"]

/-- The indexed loop `for i := 0; i < len(data.Prices); i++` of the source,
written as simultaneous structural recursion: at depth `i`, the heads are
`prices[i]` and (when present) `marketCaps[i]` / `totalVolumes[i]`, exactly
the accesses the source makes.  A panic anywhere aborts the process, hence
the whole computation. -/
def cgHistRows (tokenID : String) :
    List (List FQ) → List (List FQ) → List (List FQ) →
      Except String (List (List String))
  | [], _, _ => Except.ok []
  | p :: ps, mcs, vols =>
    match cgHistRecord tokenID p mcs.head? vols.head? with
    | Except.error e => Except.error e
    | Except.ok row =>
      match cgHistRows tokenID ps mcs.tail vols.tail with
      | Except.error e => Except.error e
      | Except.ok rest => Except.ok (row :: rest)

/-- Model of `writeCoinGeckoHistoricalToCSV`: the list of CSV rows appended
for one token's payload.  The source's returned count is the number of these
rows (the csv writer buffers in memory, so per-row write errors cannot occur
before the final flush and are not modelled; the file-open-failure path,
which returns 0, is modelled at the persistence level). -/
def writeCoinGeckoHistoricalToCSV (tokenID : String)
    (data : CoinGeckoHistoricalResponse) : Except String (List (List String)) :=
  cgHistRows tokenID data.prices data.marketCaps data.totalVolumes

/-! ### Run-mode controller (REST collector, main lines 153–165) -/

/-- The two run modes of the collector. -/
inductive RunMode
  | firstRun
  | recurringRun
deriving DecidableEq, Repr

/-- The run-mode decision of `main`: `SKIP_HISTORICAL` is set (recurring run)
exactly when `fileExists(CG_CSV_PATH) || fileExists(CMC_CSV_PATH)`. -/
def decideRunMode (cgExists cmcExists : Bool) : RunMode :=
  if cgExists || cmcExists then RunMode.recurringRun else RunMode.firstRun

/-! ### fileExists (REST collector, lines 239–245) -/

/-- Outcome of `os.Stat` on a path, as distinguished by the source:
a successful stat of a regular file or of a directory, a failure for which
`os.IsNotExist` holds, or any other failure (permission error, I/O error),
in which case the returned `FileInfo` is nil. -/
inductive StatResult
  | statFile
  | statDir
  | errNotExist
  | errOther
deriving DecidableEq, Repr

/-- Model of `fileExists`: `os.IsNotExist(err)` yields false; otherwise the
source evaluates `!info.IsDir()`.  When `os.Stat` failed with any error other
than not-exists, `info` is nil and the method call is a nil-pointer
dereference — a Go runtime panic, modelled as an error. -/
def fileExists : StatResult → Except String Bool
  | StatResult.errNotExist => Except.ok false
  | StatResult.statFile => Except.ok true
  | StatResult.statDir => Except.ok false
  | StatResult.errOther =>
      Except.error "runtime error: invalid memory address or nil pointer dereference"

/-! ### CoinMarketCap quotes (REST collector) -/

/-- Status block of a CMC response. -/
structure CMCStatus where
  errorCode : Int
  errorMessage : String
deriving DecidableEq, Repr

/-- Nested quote data of one coin (the "USD" entry is the one consumed). -/
structure CMCQuote where
  price : FQ
  volume24h : FQ
  volumeChange24h : FQ
  percentChange1h : FQ
  percentChange24h : FQ
  percentChange7d : FQ
  marketCap : FQ
  marketCapDominance : FQ
  lastUpdated : String
deriving DecidableEq, Repr

/-- The Go zero value of `CMCQuote`, produced by a map access on a missing
key. -/
def CMCQuote.zero : CMCQuote := ⟨0, 0, 0, 0, 0, 0, 0, 0, ""⟩

/-- Per-coin data of a CMC response. -/
structure CMCCoinData where
  id : Int
  name : String
  symbol : String
  slug : String
  circulatingSupply : FQ
  totalSupply : FQ
  maxSupply : FQ
  quote : List (String × CMCQuote)
deriving DecidableEq, Repr

/-- A decoded CMC quotes response: per-symbol data plus a status block.  The
Go map is modelled as an association list (iteration order is irrelevant to
every property below). -/
structure CMCQuoteResponse where
  data : List (String × CMCCoinData)
  status : CMCStatus
deriving DecidableEq, Repr

/-- Go map indexing with the zero value for a missing key
(`coin.Quote["USD"]`). -/
def lookupQuote (q : List (String × CMCQuote)) (key : String) : CMCQuote :=
  match q.find? (fun pr => pr.1 = key) with
  | some pr => pr.2
  | none => CMCQuote.zero

/-- One CSV row of `writeCMCDataToCSV` for one coin. -/
def cmcRecord (timestamp : Int) (date : String) (coin : CMCCoinData) : List String :=
  let quote := lookupQuote coin.quote "USD"
  [toString timestamp, date, coin.symbol, coin.name, coin.slug,
   fmtFixed 8 quote.price, fmtFixed 2 quote.volume24h,
   fmtFixed 4 quote.volumeChange24h, fmtFixed 4 quote.percentChange1h,
   fmtFixed 4 quote.percentChange24h, fmtFixed 4 quote.percentChange7d,
   fmtFixed 2 quote.marketCap, fmtFixed 4 quote.marketCapDominance,
   fmtFixed 2 coin.circulatingSupply, fmtFixed 2 coin.totalSupply,
   fmtFixed 2 coin.maxSupply, quote.lastUpdated, "coinmarketcap"]

/-- Model of `writeCMCDataToCSV`: the rows appended for one decoded response;
the source's returned count is their number. -/
def writeCMCDataToCSV (timestamp : Int) (date : String)
    (resp : CMCQuoteResponse) : List (List String) :=
  resp.data.map (fun pr => cmcRecord timestamp date pr.2)

/-- What one CMC batch iteration observed, up to and including decoding:
request construction failed, the HTTP round-trip failed, or a response
arrived with a status code and a body that decodes or does not. -/
inductive CMCBody
  | undecodable
  | decoded (resp : CMCQuoteResponse)
deriving DecidableEq, Repr

/-- Outcome of the fetch part of one batch iteration of
`collectCoinMarketCapData`. -/
inductive CMCFetchOutcome
  | reqBuildError
  | networkError
  | httpResponse (status : Nat) (body : CMCBody)
deriving DecidableEq, Repr

/-- Record count contributed by one batch of `collectCoinMarketCapData`:
every failure arm of the source (`continue` after logging) contributes 0;
only a 200 response that decodes and carries error code 0 reaches
`writeCMCDataToCSV`. -/
def processCMCBatch (timestamp : Int) (date : String) : CMCFetchOutcome → Nat
  | CMCFetchOutcome.reqBuildError => 0
  | CMCFetchOutcome.networkError => 0
  | CMCFetchOutcome.httpResponse status body =>
    if status ≠ 200 then 0
    else
      match body with
      | CMCBody.undecodable => 0
      | CMCBody.decoded resp =>
        if resp.status.errorCode ≠ 0 then 0
        else (writeCMCDataToCSV timestamp date resp).length

/-- Model of the batch loop of `collectCoinMarketCapData`: `totalRecords`
accumulates every batch's contribution; no failure stops the iteration. -/
def collectCoinMarketCapData (timestamp : Int) (date : String)
    (batches : List CMCFetchOutcome) : Nat :=
  (batches.map (processCMCBatch timestamp date)).sum

/-! ### Batch chunking (collectCoinGeckoCurrent / collectCoinMarketCapData)

The source loops `for i := 0; i < len(tokens); i += batchSize` and takes
`tokens[i:min(i+batchSize, len)]` as the batch.  This is the same as
repeatedly taking `batchSize` elements off the front, which the fuel-indexed
recursion below performs; fuel `l.length` suffices whenever the batch size is
positive (the source uses 50), since every step removes at least one
element. -/
def chunkGo (batchSize : Nat) : Nat → List α → List (List α)
  | _, [] => []
  | 0, _ => []
  | fuel + 1, l => l.take batchSize :: chunkGo batchSize fuel (l.drop batchSize)

/-- The list of batches dispatched for a token list. -/
def chunkBatches (batchSize : Nat) (l : List α) : List (List α) :=
  chunkGo batchSize l.length l

/-! ### Scrape client (scraper program) -/

/-- The scraper's per-row record (src/api/main.go scraper part,
`HistoricalData`). -/
structure HistoricalData where
  Date : String
  TokenSymbol : String
  TokenName : String
  Open : FQ
  High : FQ
  Low : FQ
  Close : FQ
  Volume : FQ
  MarketCap : FQ
  Source : String
deriving DecidableEq, Repr

/-- Model of `parsePrice(cells, index)` of the source: the out-of-range and
TextContent-error guards both return 0, which the empty-string default
reproduces (`parsePrice "" = 0`). -/
def parsePriceCell (cells : List String) (i : Nat) : FQ :=
  parsePrice (cells.getD i "")

/-- The record built by `scrapeToken` for one table row whose cell texts are
`cells`: fixed symbol/name/source fields, parsed date from column 0 and
parsed numerics from columns 1–6. -/
def scrapeRow (token : String) (cells : List String) : HistoricalData :=
  { Date := parseDate (goTrim (cells.getD 0 ""))
    TokenSymbol := goToUpper token
    TokenName := ""
    Open := parsePriceCell cells 1
    High := parsePriceCell cells 2
    Low := parsePriceCell cells 3
    Close := parsePriceCell cells 4
    Volume := parsePriceCell cells 5
    MarketCap := parsePriceCell cells 6
    Source := "CoinMarketCap" }

/-- Model of the row-extraction loop of `scrapeToken`: a row with fewer than
7 cells is skipped; an extracted record is appended exactly when its date is
non-empty and its close is strictly positive. -/
def scrapeToken (token : String) : List (List String) → List HistoricalData
  | [] => []
  | cells :: rest =>
    let tailRecs := scrapeToken token rest
    if cells.length < 7 then tailRecs
    else
      let d := scrapeRow token cells
      if d.Date ≠ "" ∧ 0 < d.Close then d :: tailRecs else tailRecs

/-! ### Persistence layer (CSV files)

A CSV file is its list of rows, header included.  `os.Create` (used by every
`init...CSV` function) truncates an existing file; `os.OpenFile` with
`O_WRONLY|O_APPEND` (used by every append function) extends it. -/

/-- A CSV file's rows, header row included. -/
abbrev CSVFile := List (List String)

/-- Header of the scraper's output file (`initCSV`). -/
def scrapeHeaders : List String :=
  ["date", "token_symbol", "token_name", "open", "high", "low", "close",
   "volume", "market_cap", "source"]

/-- Model of the scraper's `initCSV`: `os.Create` truncates, so whatever the
file contained before (`_prior`) is discarded and the file holds exactly the
header row. -/
def initCSV (_prior : Option CSVFile) : CSVFile := [scrapeHeaders]

/-- The CSV row written by `appendToCSV` for one record. -/
def histToRow (d : HistoricalData) : List String :=
  [d.Date, d.TokenSymbol, d.TokenName, fmtFixed 8 d.Open, fmtFixed 8 d.High,
   fmtFixed 8 d.Low, fmtFixed 8 d.Close, fmtFixed 2 d.Volume,
   fmtFixed 2 d.MarketCap, d.Source]

/-- Model of the scraper's `appendToCSV`: append mode, one row per record in
order. -/
def appendToCSV (file : CSVFile) (data : List HistoricalData) : CSVFile :=
  file ++ data.map histToRow

/-- Model of the scraper `main`'s effect on its output file: `initCSV` is
called unconditionally (lines 700–705), then `scrapeHistoricalData` appends
each token's records when any were collected. -/
def scrapeMainFile (prior : Option CSVFile)
    (perTokenRecords : List (List HistoricalData)) : CSVFile :=
  perTokenRecords.foldl
    (fun f recs => if 0 < recs.length then appendToCSV f recs else f)
    (initCSV prior)

/-- Header of the REST collector's CoinGecko output file
(`initCoinGeckoCSV`). -/
def cgHeaders : List String :=
  ["timestamp", "date", "token_id", "symbol", "name", "price", "market_cap",
   "total_volume", "high_24h", "low_24h", "price_change_24h",
   "price_change_percentage_24h", "circulating_supply", "total_supply",
   "ath", "ath_date", "source"]

/-- Model of the REST collector's header phase for the CoinGecko file:
`initCoinGeckoCSV` is called only when `fileExists` was false (main lines
177–183); an existing file is left untouched. -/
def apiInitCG (prior : Option CSVFile) : CSVFile :=
  match prior with
  | some f => f
  | none => [cgHeaders]

/-- Model of one REST-collector run's effect on the CoinGecko file: the
guarded header phase followed by a sequence of append-mode batch writes. -/
def apiRunFileCG (prior : Option CSVFile) (appends : List CSVFile) : CSVFile :=
  appends.foldl (fun f rows => f ++ rows) (apiInitCG prior)

/-! ## Theorems -/

/-- Folding append over a batch list concatenates the batches after the
start file. -/
lemma foldl_append_flatten (bs : List CSVFile) (f : CSVFile) :
    bs.foldl (fun a b => a ++ b) f = f ++ bs.flatten := by
  induction bs generalizing f with
  | nil => simp
  | cons b bs ih => simp [ih, List.append_assoc]

/-- The scraper's guarded per-token append step is plain concatenation: a
token with no records contributes nothing either way. -/
lemma scrapeMainFile_eq (prior : Option CSVFile)
    (perTokenRecords : List (List HistoricalData)) :
    scrapeMainFile prior perTokenRecords =
      [scrapeHeaders] ++ (perTokenRecords.map (fun recs => recs.map histToRow)).flatten := by
  unfold scrapeMainFile initCSV
  generalize ([scrapeHeaders] : CSVFile) = f
  induction perTokenRecords generalizing f with
  | nil => simp
  | cons recs rest ih =>
    have hstep :
        (if 0 < recs.length then appendToCSV f recs else f) =
          f ++ recs.map histToRow := by
      by_cases h : 0 < recs.length
      · simp [appendToCSV, h]
      · have : recs = [] := by
          cases recs with
          | nil => rfl
          | cons a t => exact absurd (Nat.succ_pos t.length) h
        simp [this]
    simp only [List.foldl_cons, hstep, ih, List.map_cons, List.flatten_cons,
      List.append_assoc]

/-- Claim C3: the run-mode controller selects FirstRun exactly when neither
REST output file exists, and RecurringRun whenever at least one of the two
exists (including when exactly one exists). -/
theorem decideRunMode_spec :
    ∀ cgExists cmcExists : Bool,
      (decideRunMode cgExists cmcExists = RunMode.firstRun ↔
        cgExists = false ∧ cmcExists = false) ∧
      (decideRunMode cgExists cmcExists = RunMode.recurringRun ↔
        (cgExists = true ∨ cmcExists = true)) := by
  decide

/-- Claim C4 (code bug): `fileExists` returns false for a not-exists error
and for a directory, true for a file — but a stat failure that is not
not-exists (e.g. a permission error) leaves the `FileInfo` nil, and the
`IsDir` call panics instead of returning false as the claim states. -/
theorem fileExists_panics_on_other_stat_error :
    fileExists StatResult.errNotExist = Except.ok false ∧
    fileExists StatResult.statDir = Except.ok false ∧
    fileExists StatResult.statFile = Except.ok true ∧
    fileExists StatResult.errOther =
      Except.error "runtime error: invalid memory address or nil pointer dereference" ∧
    (∀ b : Bool, fileExists StatResult.errOther ≠ Except.ok b) := by
  decide

/-- Claim C5 (code bug): a historical payload that decodes successfully but
whose price array contains an inner array with fewer than two elements makes
the normalize-and-write step panic with an index-out-of-range runtime error
(terminating the process) instead of returning a record count. -/
theorem cg_hist_short_inner_array_panics :
    writeCoinGeckoHistoricalToCSV "bitcoin"
        ⟨[[⟨1700000000000, 1⟩]], [], []⟩ =
      Except.error "runtime error: index out of range" := by
  decide

/-- Claim C6: the tolerant numeric parser is total and maps "$1,234.50" to
1234.50, "$2.3B" to 2300000000 (B/b times 10^9, M/m times 10^6, detected
case-insensitively after stripping "$" and ","), and unparseable text such
as an em dash to 0. -/
theorem parsePrice_tolerant_spec :
    parsePrice "$1,234.50" = ⟨2469, 2⟩ ∧
    parsePrice "$2.3B" = ⟨2300000000, 1⟩ ∧
    parsePrice "$2.3b" = ⟨2300000000, 1⟩ ∧
    parsePrice "$5.1M" = ⟨5100000, 1⟩ ∧
    parsePrice "$5.1m" = ⟨5100000, 1⟩ ∧
    parsePrice "—" = 0 ∧
    parsePrice "N/A" = 0 ∧
    parsePrice "" = 0 := by
  refine ⟨by decide, by decide, by decide, by decide, by decide, by decide,
    by decide, by decide⟩

/-- Claim C1 fails on the scrape collector: its `main` calls the truncating
`initCSV` unconditionally, so a run started against an output file already
holding a committed data row discards that row — here a file with a header
and one data row is reduced to the bare header even though nothing was
appended, instead of keeping its 2 rows. -/
theorem scrape_rerun_discards_committed_rows :
    scrapeMainFile
        (some [scrapeHeaders,
          ["2024-01-01", "BTC", "", "1.00000000", "1.00000000", "1.00000000",
           "1.00000000", "1.00", "1.00", "CoinMarketCap"]]) [] =
      [scrapeHeaders] ∧
    ([scrapeHeaders] : CSVFile).length = 1 ∧
    (some [scrapeHeaders,
      ["2024-01-01", "BTC", "", "1.00000000", "1.00000000", "1.00000000",
       "1.00000000", "1.00", "1.00", "CoinMarketCap"]]).map List.length =
      some 2 := by
  refine ⟨by decide, by decide, by decide⟩

/-- Claim C1 amended: append operations never rewrite rows — the REST
collector, which initializes a file only when it is absent, leaves all
previously committed rows unchanged and in order, appends new rows after
them, and adds counts; the scrape collector is append-only only within a
single run, because its startup unconditionally resets the file to the bare
header. -/
theorem append_only_per_collector :
    (∀ (f : CSVFile) (appends : List CSVFile),
        apiRunFileCG (some f) appends = f ++ appends.flatten ∧
        (apiRunFileCG (some f) appends).length = f.length + appends.flatten.length) ∧
    (∀ appends : List CSVFile,
        apiRunFileCG none appends = [cgHeaders] ++ appends.flatten) ∧
    (∀ (prior : Option CSVFile) (perTokenRecords : List (List HistoricalData)),
        scrapeMainFile prior perTokenRecords =
          [scrapeHeaders] ++
            (perTokenRecords.map (fun recs => recs.map histToRow)).flatten) := by
  refine ⟨fun f appends => ?_, fun appends => ?_, scrapeMainFile_eq⟩
  · have h : apiRunFileCG (some f) appends = f ++ appends.flatten :=
      foldl_append_flatten appends f
    exact ⟨h, by rw [h, List.length_append]⟩
  · exact foldl_append_flatten appends [cgHeaders]

/-- Claim C7: a scraped row (with the full complement of cells) is accepted
exactly when its parsed date is non-empty and its parsed close is strictly
positive; a parsed date with close 0 is discarded, an empty date with close
150.25 is discarded, and a row with both is kept. -/
theorem scrape_row_validity_gate :
    (∀ (token : String) (cells : List String), 7 ≤ cells.length →
        ((scrapeToken token [cells]).length = 1 ↔
          (parseDate (goTrim (cells.getD 0 "")) ≠ "" ∧
            (0 : FQ) < parsePrice (cells.getD 4 "")))) ∧
    scrapeToken "bitcoin"
      [["Jan 15, 2024", "$100", "$110", "$90", "$0.00", "$1.2B", "$2.0B"]] = [] ∧
    scrapeToken "bitcoin"
      [["", "$100", "$110", "$90", "$150.25", "$1.2B", "$2.0B"]] = [] ∧
    (scrapeToken "bitcoin"
      [["2024-01-15", "$100", "$110", "$90", "$150.25", "$1.2B", "$2.0B"]]).length
      = 1 := by
  refine ⟨fun token cells h => ?_, by decide, by decide, by decide⟩
  have hn : ¬ (cells.length < 7) := by omega
  have e : scrapeToken token [cells] =
      if cells.length < 7 then []
      else
        if (scrapeRow token cells).Date ≠ "" ∧ 0 < (scrapeRow token cells).Close
        then [scrapeRow token cells] else [] := rfl
  rw [e, if_neg hn]
  by_cases hg :
      (scrapeRow token cells).Date ≠ "" ∧ 0 < (scrapeRow token cells).Close
  · rw [if_pos hg]
    exact iff_of_true rfl hg
  · rw [if_neg hg]
    exact iff_of_false (by simp) hg

/-- Witness for the row-validity gate at a concrete kept row. -/
theorem scrape_row_validity_gate_witness :
    7 ≤ (["2024-01-15", "$100", "$110", "$90", "$150.25", "$1.2B", "$2.0B"] :
        List String).length ∧
    ((scrapeToken "bitcoin"
        [["2024-01-15", "$100", "$110", "$90", "$150.25", "$1.2B", "$2.0B"]]).length = 1 ↔
      (parseDate (goTrim ((["2024-01-15", "$100", "$110", "$90", "$150.25",
          "$1.2B", "$2.0B"] : List String).getD 0 "")) ≠ "" ∧
        (0 : FQ) < parsePrice ((["2024-01-15", "$100", "$110", "$90", "$150.25",
          "$1.2B", "$2.0B"] : List String).getD 4 ""))) :=
  ⟨by decide, scrape_row_validity_gate.1 "bitcoin"
    ["2024-01-15", "$100", "$110", "$90", "$150.25", "$1.2B", "$2.0B"] (by decide)⟩

/-- Every record in the scrape result is the row built by `scrapeRow` for
some cell list. -/
lemma scrapeToken_mem_eq_scrapeRow (token : String) :
    ∀ (rows : List (List String)) (d : HistoricalData),
      d ∈ scrapeToken token rows → ∃ cells, d = scrapeRow token cells := by
  intro rows
  induction rows with
  | nil => intro d hd; simp [scrapeToken] at hd
  | cons cells rest ih =>
    intro d hd
    have e : scrapeToken token (cells :: rest) =
        if cells.length < 7 then scrapeToken token rest
        else
          if (scrapeRow token cells).Date ≠ "" ∧ 0 < (scrapeRow token cells).Close
          then scrapeRow token cells :: scrapeToken token rest
          else scrapeToken token rest := rfl
    rw [e] at hd
    split_ifs at hd with h1 h2
    · exact ih d hd
    · rcases List.mem_cons.mp hd with h | h
      · exact ⟨cells, h⟩
      · exact ih d h
    · exact ih d hd

/-- Claim C10: every record the scrape client produces has an empty
token_name, token_symbol equal to the upper-cased token slug, and source
fixed to "CoinMarketCap"; consequently the token_name column of every CSV
row it writes is empty.  Concretely, the slug "avalanche-2012" yields the
symbol "AVALANCHE-2012". -/
theorem scrape_records_fixed_fields :
    (∀ (token : String) (rows : List (List String)) (d : HistoricalData),
        d ∈ scrapeToken token rows →
          d.TokenName = "" ∧ d.TokenSymbol = goToUpper token ∧
            d.Source = "CoinMarketCap" ∧ (histToRow d)[2]? = some "") ∧
    (scrapeToken "avalanche-2012"
        [["2024-01-15", "$100", "$110", "$90", "$150.25", "$1.2B", "$2.0B"]]).map
      HistoricalData.TokenSymbol = ["AVALANCHE-2012"] := by
  refine ⟨fun token rows d hd => ?_, by decide⟩
  obtain ⟨cells, rfl⟩ := scrapeToken_mem_eq_scrapeRow token rows d hd
  exact ⟨rfl, rfl, rfl, rfl⟩

/-- Witness for the fixed scrape fields at a concrete accepted record. -/
theorem scrape_records_fixed_fields_witness :
    (⟨"2024-01-15", "AVALANCHE-2012", "", ⟨100, 1⟩, ⟨110, 1⟩, ⟨90, 1⟩,
        ⟨601, 4⟩, ⟨1200000000, 1⟩, ⟨2000000000, 1⟩, "CoinMarketCap"⟩ :
        HistoricalData) ∈
      scrapeToken "avalanche-2012"
        [["2024-01-15", "$100", "$110", "$90", "$150.25", "$1.2B", "$2.0B"]] ∧
    ((⟨"2024-01-15", "AVALANCHE-2012", "", ⟨100, 1⟩, ⟨110, 1⟩, ⟨90, 1⟩,
        ⟨601, 4⟩, ⟨1200000000, 1⟩, ⟨2000000000, 1⟩, "CoinMarketCap"⟩ :
        HistoricalData).TokenName = "" ∧
      (⟨"2024-01-15", "AVALANCHE-2012", "", ⟨100, 1⟩, ⟨110, 1⟩, ⟨90, 1⟩,
        ⟨601, 4⟩, ⟨1200000000, 1⟩, ⟨2000000000, 1⟩, "CoinMarketCap"⟩ :
        HistoricalData).TokenSymbol = goToUpper "avalanche-2012" ∧
      (⟨"2024-01-15", "AVALANCHE-2012", "", ⟨100, 1⟩, ⟨110, 1⟩, ⟨90, 1⟩,
        ⟨601, 4⟩, ⟨1200000000, 1⟩, ⟨2000000000, 1⟩, "CoinMarketCap"⟩ :
        HistoricalData).Source = "CoinMarketCap" ∧
      (histToRow
        (⟨"2024-01-15", "AVALANCHE-2012", "", ⟨100, 1⟩, ⟨110, 1⟩, ⟨90, 1⟩,
          ⟨601, 4⟩, ⟨1200000000, 1⟩, ⟨2000000000, 1⟩, "CoinMarketCap"⟩ :
          HistoricalData))[2]? = some "") :=
  ⟨by decide,
    scrape_records_fixed_fields.1 "avalanche-2012"
      [["2024-01-15", "$100", "$110", "$90", "$150.25", "$1.2B", "$2.0B"]] _
      (by decide)⟩

/-- Claim C8: a decoded CMC response arriving with HTTP status 200 but a
non-zero application-level error code contributes zero records, and the batch
loop continues: the total over any batch sequence containing such a response
is the total of the batches before it plus the total of the batches after
it. -/
theorem cmc_error_code_is_failure (timestamp : Int) (date : String)
    (pre post : List CMCFetchOutcome) (resp : CMCQuoteResponse)
    (h : resp.status.errorCode ≠ 0) :
    processCMCBatch timestamp date
        (CMCFetchOutcome.httpResponse 200 (CMCBody.decoded resp)) = 0 ∧
    collectCoinMarketCapData timestamp date
        (pre ++ CMCFetchOutcome.httpResponse 200 (CMCBody.decoded resp) :: post) =
      collectCoinMarketCapData timestamp date pre +
        collectCoinMarketCapData timestamp date post := by
  have hz : processCMCBatch timestamp date
      (CMCFetchOutcome.httpResponse 200 (CMCBody.decoded resp)) = 0 := by
    simp [processCMCBatch, h]
  refine ⟨hz, ?_⟩
  simp [collectCoinMarketCapData, hz]

/-- Witness for the CMC error-code failure handling: the error batch sits
between two successful one-coin batches, and the total counts only those. -/
theorem cmc_error_code_is_failure_witness :
    (⟨[], ⟨1001, "API key invalid"⟩⟩ : CMCQuoteResponse).status.errorCode ≠ 0 ∧
    (processCMCBatch 1700000000 "2023-11-14"
        (CMCFetchOutcome.httpResponse 200
          (CMCBody.decoded ⟨[], ⟨1001, "API key invalid"⟩⟩)) = 0 ∧
      collectCoinMarketCapData 1700000000 "2023-11-14"
          ([CMCFetchOutcome.httpResponse 200 (CMCBody.decoded
              ⟨[("BTC", ⟨1, "Bitcoin", "BTC", "bitcoin", 0, 0, 0, []⟩)], ⟨0, ""⟩⟩)] ++
            CMCFetchOutcome.httpResponse 200
              (CMCBody.decoded ⟨[], ⟨1001, "API key invalid"⟩⟩) ::
            [CMCFetchOutcome.httpResponse 200 (CMCBody.decoded
              ⟨[("ETH", ⟨2, "Ethereum", "ETH", "ethereum", 0, 0, 0, []⟩)], ⟨0, ""⟩⟩)]) =
        collectCoinMarketCapData 1700000000 "2023-11-14"
            [CMCFetchOutcome.httpResponse 200 (CMCBody.decoded
              ⟨[("BTC", ⟨1, "Bitcoin", "BTC", "bitcoin", 0, 0, 0, []⟩)], ⟨0, ""⟩⟩)] +
          collectCoinMarketCapData 1700000000 "2023-11-14"
            [CMCFetchOutcome.httpResponse 200 (CMCBody.decoded
              ⟨[("ETH", ⟨2, "Ethereum", "ETH", "ethereum", 0, 0, 0, []⟩)], ⟨0, ""⟩⟩)]) :=
  ⟨by decide,
    cmc_error_code_is_failure 1700000000 "2023-11-14"
      [CMCFetchOutcome.httpResponse 200 (CMCBody.decoded
        ⟨[("BTC", ⟨1, "Bitcoin", "BTC", "bitcoin", 0, 0, 0, []⟩)], ⟨0, ""⟩⟩)]
      [CMCFetchOutcome.httpResponse 200 (CMCBody.decoded
        ⟨[("ETH", ⟨2, "Ethereum", "ETH", "ethereum", 0, 0, 0, []⟩)], ⟨0, ""⟩⟩)]
      ⟨[], ⟨1001, "API key invalid"⟩⟩ (by decide)⟩

/-- Chunking an empty list is empty for any fuel. -/
lemma chunkGo_nil {α : Type} (batchSize fuel : Nat) :
    chunkGo batchSize fuel ([] : List α) = [] := by
  cases fuel <;> rfl

/-- Unfolding equation of `chunkGo` in the running case. -/
lemma chunkGo_cons_succ {α : Type} (batchSize fuel : Nat) (x : α) (xs : List α) :
    chunkGo batchSize (fuel + 1) (x :: xs) =
      (x :: xs).take batchSize :: chunkGo batchSize fuel ((x :: xs).drop batchSize) :=
  rfl

/-- Concatenating the dispatched batches restores the token list. -/
lemma chunkGo_flatten {α : Type} (batchSize : Nat) (hB : 0 < batchSize) :
    ∀ (fuel : Nat) (l : List α), l.length ≤ fuel →
      (chunkGo batchSize fuel l).flatten = l := by
  intro fuel
  induction fuel with
  | zero =>
    intro l hl
    have : l = [] := List.eq_nil_of_length_eq_zero (Nat.le_zero.mp hl)
    subst this
    rfl
  | succ fuel ih =>
    intro l hl
    cases l with
    | nil => rfl
    | cons x xs =>
      rw [chunkGo_cons_succ, List.flatten_cons, ih _ ?hle, List.take_append_drop]
      case hle =>
        rw [List.length_drop]
        simp only [List.length_cons] at hl ⊢
        omega

/-- The number of dispatched batches is the ceiling of the list length over
the batch size. -/
lemma chunkGo_length {α : Type} (batchSize : Nat) (hB : 0 < batchSize) :
    ∀ (fuel : Nat) (l : List α), l.length ≤ fuel →
      (chunkGo batchSize fuel l).length =
        (l.length + batchSize - 1) / batchSize := by
  intro fuel
  induction fuel with
  | zero =>
    intro l hl
    have : l = [] := List.eq_nil_of_length_eq_zero (Nat.le_zero.mp hl)
    subst this
    simpa using (Nat.div_eq_of_lt (by omega)).symm
  | succ fuel ih =>
    intro l hl
    cases l with
    | nil => simpa using (Nat.div_eq_of_lt (by omega)).symm
    | cons x xs =>
      have hdl : ((x :: xs).drop batchSize).length ≤ fuel := by
        rw [List.length_drop]
        simp only [List.length_cons] at hl ⊢
        omega
      rw [chunkGo_cons_succ, List.length_cons, ih _ hdl, List.length_drop]
      simp only [List.length_cons]
      rcases Nat.lt_or_ge (xs.length + 1) batchSize with hlt | hge
      · have h0 : xs.length + 1 - batchSize = 0 := by omega
        rw [h0, Nat.div_eq_of_lt (by omega)]
        exact (Nat.div_eq_of_lt_le (by omega) (by omega)).symm
      · have e1 : xs.length + 1 - batchSize + batchSize - 1 = xs.length := by
          omega
        have e2 : xs.length + 1 + batchSize - 1 = xs.length + batchSize := by
          omega
        rw [e1, e2, Nat.add_div_right _ hB]

/-- Chunking produces a batch whenever the list is non-empty and fuel
remains. -/
lemma chunkGo_ne_nil {α : Type} (batchSize fuel : Nat) (x : α) (xs : List α) :
    chunkGo batchSize (fuel + 1) (x :: xs) ≠ [] := by
  rw [chunkGo_cons_succ]
  exact List.cons_ne_nil _ _

/-- Every dispatched batch except possibly the last has exactly the batch
size. -/
lemma chunkGo_dropLast {α : Type} (batchSize : Nat) (hB : 0 < batchSize) :
    ∀ (fuel : Nat) (l : List α), l.length ≤ fuel →
      ∀ c ∈ (chunkGo batchSize fuel l).dropLast, c.length = batchSize := by
  intro fuel
  induction fuel with
  | zero =>
    intro l hl c hc
    have : l = [] := List.eq_nil_of_length_eq_zero (Nat.le_zero.mp hl)
    subst this
    simp [chunkGo_nil] at hc
  | succ fuel ih =>
    intro l hl c hc
    cases l with
    | nil => simp [chunkGo_nil] at hc
    | cons x xs =>
      rw [chunkGo_cons_succ] at hc
      by_cases hd : (x :: xs).drop batchSize = []
      · rw [hd, chunkGo_nil] at hc
        simp at hc
      · have hlen : ((x :: xs).drop batchSize).length ≤ fuel := by
          rw [List.length_drop]
          simp only [List.length_cons] at hl ⊢
          omega
        have hBlt : batchSize < xs.length + 1 := by
          by_contra hcon
          apply hd
          rw [← List.length_eq_zero, List.length_drop]
          simp only [List.length_cons]
          omega
        have hne : chunkGo batchSize fuel ((x :: xs).drop batchSize) ≠ [] := by
          cases hfe : (x :: xs).drop batchSize with
          | nil => exact absurd hfe hd
          | cons y ys =>
            cases fuel with
            | zero =>
              exfalso
              rw [hfe] at hlen
              simp at hlen
            | succ f => exact hfe ▸ chunkGo_ne_nil batchSize f y ys
        rw [List.dropLast_cons_of_ne_nil hne] at hc
        rcases List.mem_cons.mp hc with h | h
        · subst h
          rw [List.length_take]
          simp only [List.length_cons]
          omega
        · exact ih _ hlen c h

/-- The last dispatched batch has the residue length (or the full batch size
when the list length is an exact multiple). -/
lemma chunkGo_getLast {α : Type} (batchSize : Nat) (hB : 0 < batchSize) :
    ∀ (fuel : Nat) (l : List α), l.length ≤ fuel →
      ∀ c, (chunkGo batchSize fuel l).getLast? = some c →
        c.length =
          if l.length % batchSize = 0 then batchSize
          else l.length % batchSize := by
  intro fuel
  induction fuel with
  | zero =>
    intro l hl c hc
    have : l = [] := List.eq_nil_of_length_eq_zero (Nat.le_zero.mp hl)
    subst this
    simp [chunkGo_nil] at hc
  | succ fuel ih =>
    intro l hl c hc
    cases l with
    | nil => simp [chunkGo_nil] at hc
    | cons x xs =>
      rw [chunkGo_cons_succ] at hc
      by_cases hd : (x :: xs).drop batchSize = []
      · have hle : xs.length + 1 ≤ batchSize := by
          have := congrArg List.length hd
          rw [List.length_drop] at this
          simp only [List.length_cons, List.length_nil] at this
          omega
        rw [hd, chunkGo_nil] at hc
        simp only [List.getLast?_singleton, Option.some.injEq] at hc
        subst hc
        rw [List.length_take]
        simp only [List.length_cons]
        rcases Nat.lt_or_ge (xs.length + 1) batchSize with hlt | hge
        · rw [Nat.mod_eq_of_lt hlt, if_neg (by omega)]
          omega
        · have heq : xs.length + 1 = batchSize := by omega
          rw [heq, Nat.mod_self, if_pos rfl]
          omega
      · have hlen : ((x :: xs).drop batchSize).length ≤ fuel := by
          rw [List.length_drop]
          simp only [List.length_cons] at hl ⊢
          omega
        have hBlt : batchSize < xs.length + 1 := by
          by_contra hcon
          apply hd
          rw [← List.length_eq_zero, List.length_drop]
          simp only [List.length_cons]
          omega
        have hne : chunkGo batchSize fuel ((x :: xs).drop batchSize) ≠ [] := by
          cases hfe : (x :: xs).drop batchSize with
          | nil => exact absurd hfe hd
          | cons y ys =>
            cases fuel with
            | zero =>
              exfalso
              rw [hfe] at hlen
              simp at hlen
            | succ f => exact hfe ▸ chunkGo_ne_nil batchSize f y ys
        have hlast : ((x :: xs).take batchSize ::
            chunkGo batchSize fuel ((x :: xs).drop batchSize)).getLast? =
            (chunkGo batchSize fuel ((x :: xs).drop batchSize)).getLast? := by
          cases hfe : chunkGo batchSize fuel ((x :: xs).drop batchSize) with
          | nil => exact absurd hfe hne
          | cons b bs => exact List.getLast?_cons_cons
        rw [hlast] at hc
        have := ih _ hlen c hc
        rw [List.length_drop] at this
        simp only [List.length_cons] at this ⊢
        have hmod : (xs.length + 1 - batchSize) % batchSize =
            (xs.length + 1) % batchSize := by
          conv_rhs => rw [← Nat.sub_add_cancel (Nat.le_of_lt hBlt)]
          rw [Nat.add_mod_right]
        rw [hmod] at this
        exact this

/-- Claim C9: for a token list of length N and positive batch size B, the
batching loop dispatches exactly ceil(N/B) batches, every batch except
possibly the last has length B, the last batch has length N mod B (or B when
N mod B = 0), and the concatenation of the batches in dispatch order is the
original list — no element duplicated or omitted. -/
theorem chunkBatches_spec {α : Type} (l : List α) (batchSize : Nat)
    (hB : 0 < batchSize) :
    (chunkBatches batchSize l).flatten = l ∧
    (chunkBatches batchSize l).length = (l.length + batchSize - 1) / batchSize ∧
    (∀ c ∈ (chunkBatches batchSize l).dropLast, c.length = batchSize) ∧
    (∀ c, (chunkBatches batchSize l).getLast? = some c →
        c.length =
          if l.length % batchSize = 0 then batchSize
          else l.length % batchSize) :=
  ⟨chunkGo_flatten batchSize hB l.length l (Nat.le_refl _),
   chunkGo_length batchSize hB l.length l (Nat.le_refl _),
   chunkGo_dropLast batchSize hB l.length l (Nat.le_refl _),
   chunkGo_getLast batchSize hB l.length l (Nat.le_refl _)⟩

/-- Witness for the chunking specification: 20 tokens in batches of 8 give
ceil(20/8) = 3 batches, the first two of length 8, the last of length
20 mod 8 = 4, concatenating to the original list. -/
theorem chunkBatches_spec_witness :
    0 < 8 ∧
    ((chunkBatches 8 (List.range 20)).flatten = List.range 20 ∧
      (chunkBatches 8 (List.range 20)).length = ((List.range 20).length + 8 - 1) / 8 ∧
      (∀ c ∈ (chunkBatches 8 (List.range 20)).dropLast, c.length = 8) ∧
      (∀ c, (chunkBatches 8 (List.range 20)).getLast? = some c →
          c.length =
            if (List.range 20).length % 8 = 0 then 8
            else (List.range 20).length % 8)) :=
  ⟨by decide, chunkBatches_spec (List.range 20) 8 (by decide)⟩

/-- Claim C2 fails on the code: a payload with 10 price points, 8 market-cap
points and 10 volume points yields 10 records, but the 9th and 10th records'
market-cap field holds the zero value formatted as "0.00" — not an empty
string as the claim states. -/
theorem cg_hist_missing_marketcap_is_zero_not_empty :
    (writeCoinGeckoHistoricalToCSV "bitcoin"
        ⟨(List.range 10).map (fun i => [⟨86400000 * (i : Int), 1⟩, ⟨1, 1⟩]),
         (List.range 8).map (fun i => [⟨86400000 * (i : Int), 1⟩, ⟨2, 1⟩]),
         (List.range 10).map (fun i => [⟨86400000 * (i : Int), 1⟩, ⟨3, 1⟩])⟩).map
        (fun rows => (rows.length, rows[8]?.bind (fun r => r[6]?))) =
      Except.ok (10, some "0.00") ∧
    some "0.00" ≠ some ("" : String) := by
  refine ⟨by decide, by decide⟩

/-- A single row of the historical normalization succeeds whenever the
accessed inner arrays have their `[timestamp, value]` pair, and an absent
market-cap (volume) entry leaves the Go zero value in the corresponding
column. -/
lemma cgHistRecord_ok (tokenID : String) (p : List FQ)
    (mcEntry volEntry : Option (List FQ)) (hp : 2 ≤ p.length)
    (hm : ∀ e, mcEntry = some e → 2 ≤ e.length)
    (hv : ∀ e, volEntry = some e → 2 ≤ e.length) :
    ∃ row, cgHistRecord tokenID p mcEntry volEntry = Except.ok row ∧
      (mcEntry = none → row[6]? = some (fmtFixed 2 0)) ∧
      (volEntry = none → row[7]? = some (fmtFixed 2 0)) := by
  obtain ⟨a, p', rfl⟩ : ∃ a p', p = a :: p' := by
    cases p with
    | nil => simp at hp
    | cons a t => exact ⟨a, t, rfl⟩
  obtain ⟨b, p'', rfl⟩ : ∃ b t, p' = b :: t := by
    cases p' with
    | nil => simp at hp
    | cons b t => exact ⟨b, t, rfl⟩
  cases mcEntry with
  | none =>
    cases volEntry with
    | none =>
      simp [cgHistRecord, goIndex]
    | some ev =>
      obtain ⟨c, d, t, rfl⟩ : ∃ c d t, ev = c :: d :: t := by
        have h2 := hv ev rfl
        cases ev with
        | nil => simp at h2
        | cons c t' =>
          cases t' with
          | nil => simp at h2
          | cons d t => exact ⟨c, d, t, rfl⟩
      simp [cgHistRecord, goIndex]
  | some em =>
    obtain ⟨c, d, t, rfl⟩ : ∃ c d t, em = c :: d :: t := by
      have h2 := hm em rfl
      cases em with
      | nil => simp at h2
      | cons c t' =>
        cases t' with
        | nil => simp at h2
        | cons d t => exact ⟨c, d, t, rfl⟩
    cases volEntry with
    | none =>
      simp [cgHistRecord, goIndex]
    | some ev =>
      obtain ⟨c', d', t', rfl⟩ : ∃ x y t', ev = x :: y :: t' := by
        have h2 := hv ev rfl
        cases ev with
        | nil => simp at h2
        | cons x u =>
          cases u with
          | nil => simp at h2
          | cons y t' => exact ⟨x, y, t', rfl⟩
      simp [cgHistRecord, goIndex]

/-- Positional alignment of the historical normalization loop: with
well-formed pairs it produces one row per price point, and every index at or
beyond the end of the market-cap (volume) array carries the formatted zero
value in that column. -/
lemma cgHistRows_alignment (tokenID : String) :
    ∀ (ps mcs vols : List (List FQ)),
      (∀ e ∈ ps, 2 ≤ e.length) → (∀ e ∈ mcs, 2 ≤ e.length) →
      (∀ e ∈ vols, 2 ≤ e.length) →
      ∃ rows, cgHistRows tokenID ps mcs vols = Except.ok rows ∧
        rows.length = ps.length ∧
        (∀ i r, mcs.length ≤ i → rows[i]? = some r →
          r[6]? = some (fmtFixed 2 0)) ∧
        (∀ i r, vols.length ≤ i → rows[i]? = some r →
          r[7]? = some (fmtFixed 2 0)) := by
  intro ps
  induction ps with
  | nil =>
    intro mcs vols _ _ _
    exact ⟨[], rfl, rfl, by intro i r _ hr; simp at hr,
      by intro i r _ hr; simp at hr⟩
  | cons p ps ih =>
    intro mcs vols hp hm hv
    obtain ⟨rest, hrest, hlen, hmc, hvol⟩ :=
      ih mcs.tail vols.tail (fun e he => hp e (List.mem_cons_of_mem p he))
        (fun e he => hm e (List.mem_of_mem_tail he))
        (fun e he => hv e (List.mem_of_mem_tail he))
    obtain ⟨row, hrow, hrow6, hrow7⟩ :=
      cgHistRecord_ok tokenID p mcs.head? vols.head?
        (hp p (List.mem_cons_self p ps))
        (fun e he => hm e (by
          cases mcs with
          | nil => simp at he
          | cons m ms =>
            simp only [List.head?_cons, Option.some.injEq] at he
            exact he ▸ List.mem_cons_self m ms))
        (fun e he => hv e (by
          cases vols with
          | nil => simp at he
          | cons m ms =>
            simp only [List.head?_cons, Option.some.injEq] at he
            exact he ▸ List.mem_cons_self m ms))
    refine ⟨row :: rest, ?_, ?_, ?_, ?_⟩
    · simp only [cgHistRows]
      rw [hrow, hrest]
    · simp [hlen]
    · intro i r hi hr
      cases i with
      | zero =>
        have hmn : mcs = [] := List.eq_nil_of_length_eq_zero (Nat.le_zero.mp hi)
        simp only [List.getElem?_cons_zero, Option.some.injEq] at hr
        subst hr
        exact hrow6 (by rw [hmn]; rfl)
      | succ j =>
        simp only [List.getElem?_cons_succ] at hr
        refine hmc j r ?_ hr
        rw [List.length_tail]
        omega
    · intro i r hi hr
      cases i with
      | zero =>
        have hvn : vols = [] := List.eq_nil_of_length_eq_zero (Nat.le_zero.mp hi)
        simp only [List.getElem?_cons_zero, Option.some.injEq] at hr
        subst hr
        exact hrow7 (by rw [hvn]; rfl)
      | succ j =>
        simp only [List.getElem?_cons_succ] at hr
        refine hvol j r ?_ hr
        rw [List.length_tail]
        omega

/-- Claim C2 amended: a decoded historical payload with n price points and
m < n market-cap (volume) points, all inner pairs well-formed, produces
exactly n records, and every record at an index at or beyond m carries the
market-cap (volume) value coerced to zero — written "0.00" — rather than
left empty. -/
theorem cg_hist_positional_alignment (tokenID : String)
    (data : CoinGeckoHistoricalResponse)
    (hp : ∀ e ∈ data.prices, 2 ≤ e.length)
    (hm : ∀ e ∈ data.marketCaps, 2 ≤ e.length)
    (hv : ∀ e ∈ data.totalVolumes, 2 ≤ e.length) :
    ∃ rows, writeCoinGeckoHistoricalToCSV tokenID data = Except.ok rows ∧
      rows.length = data.prices.length ∧
      (∀ i r, data.marketCaps.length ≤ i → rows[i]? = some r →
        r[6]? = some "0.00") ∧
      (∀ i r, data.totalVolumes.length ≤ i → rows[i]? = some r →
        r[7]? = some "0.00") := by
  obtain ⟨rows, hrows, hlen, hmc, hvol⟩ :=
    cgHistRows_alignment tokenID data.prices data.marketCaps data.totalVolumes
      hp hm hv
  have f00 : fmtFixed 2 (0 : FQ) = "0.00" := by decide
  rw [f00] at hmc hvol
  exact ⟨rows, hrows, hlen, hmc, hvol⟩

/-- Witness for the amended alignment claim at the concrete 10-price /
8-market-cap / 10-volume payload. -/
theorem cg_hist_positional_alignment_witness :
    (∀ e ∈ (CoinGeckoHistoricalResponse.mk
        ((List.range 10).map (fun i => [⟨86400000 * (i : Int), 1⟩, ⟨1, 1⟩]))
        ((List.range 8).map (fun i => [⟨86400000 * (i : Int), 1⟩, ⟨2, 1⟩]))
        ((List.range 10).map (fun i => [⟨86400000 * (i : Int), 1⟩, ⟨3, 1⟩]))).prices,
      2 ≤ e.length) ∧
    (∃ rows,
      writeCoinGeckoHistoricalToCSV "bitcoin"
          (CoinGeckoHistoricalResponse.mk
            ((List.range 10).map (fun i => [⟨86400000 * (i : Int), 1⟩, ⟨1, 1⟩]))
            ((List.range 8).map (fun i => [⟨86400000 * (i : Int), 1⟩, ⟨2, 1⟩]))
            ((List.range 10).map (fun i => [⟨86400000 * (i : Int), 1⟩, ⟨3, 1⟩]))) =
        Except.ok rows ∧
      rows.length =
        (CoinGeckoHistoricalResponse.mk
          ((List.range 10).map (fun i => [⟨86400000 * (i : Int), 1⟩, ⟨1, 1⟩]))
          ((List.range 8).map (fun i => [⟨86400000 * (i : Int), 1⟩, ⟨2, 1⟩]))
          ((List.range 10).map (fun i => [⟨86400000 * (i : Int), 1⟩, ⟨3, 1⟩]))).prices.length ∧
      (∀ i r,
        (CoinGeckoHistoricalResponse.mk
          ((List.range 10).map (fun i => [⟨86400000 * (i : Int), 1⟩, ⟨1, 1⟩]))
          ((List.range 8).map (fun i => [⟨86400000 * (i : Int), 1⟩, ⟨2, 1⟩]))
          ((List.range 10).map (fun i => [⟨86400000 * (i : Int), 1⟩, ⟨3, 1⟩]))).marketCaps.length ≤ i →
          rows[i]? = some r → r[6]? = some "0.00") ∧
      (∀ i r,
        (CoinGeckoHistoricalResponse.mk
          ((List.range 10).map (fun i => [⟨86400000 * (i : Int), 1⟩, ⟨1, 1⟩]))
          ((List.range 8).map (fun i => [⟨86400000 * (i : Int), 1⟩, ⟨2, 1⟩]))
          ((List.range 10).map (fun i => [⟨86400000 * (i : Int), 1⟩, ⟨3, 1⟩]))).totalVolumes.length ≤ i →
          rows[i]? = some r → r[7]? = some "0.00")) :=
  ⟨by decide,
    cg_hist_positional_alignment "bitcoin"
      (CoinGeckoHistoricalResponse.mk
        ((List.range 10).map (fun i => [⟨86400000 * (i : Int), 1⟩, ⟨1, 1⟩]))
        ((List.range 8).map (fun i => [⟨86400000 * (i : Int), 1⟩, ⟨2, 1⟩]))
        ((List.range 10).map (fun i => [⟨86400000 * (i : Int), 1⟩, ⟨3, 1⟩])))
      (by decide) (by decide) (by decide)⟩

end SafeSwap
